import Mathlib

/-!
Verification development for the protein-bead generator
(`make_protein_matching_toy.py`): a shallow embedding of the geometric
core (key placement planner, CSG tool construction, noise displacement,
primitive factories, bead orchestration) together with proofs of the
specification's claims.  Scalar quantities computed by the script are
modelled exactly over `ℚ`; the vertex geometry of the host's primitive
meshes (which involves trigonometry) is modelled over `ℝ`.
-/

namespace ProteinBeads

/-! ### User settings (the configuration constants of the script) -/

def SPHERE_DIAMETER : ℚ := 60
def WALL_THICKNESS : ℚ := 3
def PEG_LENGTH : ℚ := 20
def CLEARANCE : ℚ := 1/2
def OVERLAP : ℚ := 11
def BEAD_COUNT : ℕ := 4
def OUTER_R : ℚ := SPHERE_DIAMETER / 2
def INNER_R : ℚ := OUTER_R - WALL_THICKNESS
def MAX_KEY_RADIUS : ℚ := 6
def noise_strength : ℚ := 3/10 * OUTER_R
def noise_scale : ℚ := 2 / OUTER_R

/-! ### Key placement planner (`random_key_positions`) -/

/-- A point of the flat-face plane, in exact (rational) coordinates. -/
abbrev Point : Type := ℚ × ℚ

/-- Squared planar distance between two points.  The source compares
`math.hypot(x - cx, y - cy) > MAX_KEY_RADIUS * 2`; since both sides are
nonnegative this is equivalent to comparing the squared distance against
`(MAX_KEY_RADIUS * 2)^2` (see `hypot_gt_iff_distSq`). -/
def distSq (p q : Point) : ℚ := (p.1 - q.1)^2 + (p.2 - q.2)^2

/-- The quantity `usable_radius_for_keys = INNER_R - MAX_KEY_RADIUS`: the radius of the
disk that candidate positions are drawn from. -/
def usable_radius_for_keys : ℚ := INNER_R - MAX_KEY_RADIUS

/-- The radius coordinate of one candidate draw.  The source does
`r = random.uniform(0, usable_radius_for_keys)`, and `random.uniform(0, b)`
is `b * u` for a unit draw `u = random.random()` in `[0, 1]`. -/
def sample_radius (u : ℚ) : ℚ := usable_radius_for_keys * u

/-- Modelled from the spec: the spec instead prescribes the radius of a
candidate draw as `U × sqrt(uniform(0,1))` (area-uniform sampling); this
relation states that `r` is such a radius for unit draw `u`.  It is the
refinement counterpart compared against `sample_radius`, which embeds the
source. -/
def sample_radius_spec_rel (u r : ℝ) : Prop :=
  r = (usable_radius_for_keys : ℝ) * Real.sqrt u

/-- The separation test of the planner: candidate `p` is farther than
`MAX_KEY_RADIUS * 2` from every previously accepted point
(`all(math.hypot(x - cx, y - cy) > MAX_KEY_RADIUS * 2 for cx, cy in coords)`,
stated on squared distances). -/
def far_from_all (p : Point) (coords : List Point) : Bool :=
  coords.all (fun c => decide ((MAX_KEY_RADIUS * 2)^2 < distSq p c))

/-- The planner's `while len(coords) < n and attempts < 1000` loop.
`cand attempts` is the candidate point drawn on attempt number `attempts`
(in the source, `(r*cos(ang), r*sin(ang))` from two RNG draws); `fuel` is
the structural termination measure, maintained as `1000 - attempts`. -/
def rkp_loop (cand : ℕ → Point) (n : ℕ) (coords : List Point)
    (attempts fuel : ℕ) : List Point :=
  match fuel with
  | 0 => coords
  | fuel' + 1 =>
    if coords.length < n ∧ attempts < 1000 then
      let p := cand attempts
      let coords' := if far_from_all p coords then coords ++ [p] else coords
      rkp_loop cand n coords' (attempts + 1) fuel'
    else coords

/-- The planner `random_key_positions(n)`: rejection-sample up to `n` non-overlapping
positions, starting from an empty list, attempt counter 0 and the full
budget of 1000 attempts. -/
def random_key_positions (cand : ℕ → Point) (n : ℕ) : List Point :=
  rkp_loop cand n [] 0 1000

/-! ### Shapes, tools and the CSG assembler (`add_keys`, `boolean`) -/

/-- The four key shapes of `KEY_SHAPES`. -/
inductive Shape : Type where
  | cylinder
  | triangle
  | square
  | hexagon
deriving DecidableEq, Repr

/-- The list `KEY_SHAPES = ["cylinder", "triangle", "square", "hexagon"]`. -/
def KEY_SHAPES : List Shape := [.cylinder, .triangle, .square, .hexagon]

/-- The count `KEYS_PER_BEAD = len(KEY_SHAPES)`. -/
def KEYS_PER_BEAD : ℕ := KEY_SHAPES.length

/-- A KeySpec: one `(shape, (x, y))` entry of the per-bead `specs` list. -/
abbrev KeySpec : Type := Shape × Point

/-- The boolean operations used by the script. -/
inductive BoolOp : Type where
  | UNION
  | DIFFERENCE
deriving DecidableEq, Repr

/-- One positioned boolean tool: the primitive built by a shape factory with
the given radius and height, translated to `location`. -/
structure ToolPlacement : Type where
  shape : Shape
  radius : ℚ
  height : ℚ
  location : ℚ × ℚ × ℚ
deriving DecidableEq, Repr

/-- Outcome of one `bpy.ops.object.modifier_apply` call, as logged:
`applied` for "Boolean applied successfully.", `failed` for
"Error applying boolean modifier" (the caught `RuntimeError`). -/
inductive BoolResult : Type where
  | applied
  | failed
deriving DecidableEq, Repr

/-- The `boolean(target, tool, op_type)` helper.  The host's modifier
evaluation is the external collaborator `ev`; `none` models the
`RuntimeError` raised by `modifier_apply`.  On failure the exception is
caught and logged, and the target mesh is returned unchanged. -/
def boolean {α : Type} (ev : α → ToolPlacement → BoolOp → Option α)
    (target : α) (tool : ToolPlacement) (op_type : BoolOp) : α × BoolResult :=
  match ev target tool op_type with
  | some result => (result, .applied)
  | none => (target, .failed)

/-- The tool built for one KeySpec inside `add_keys`: the `if is_top`
branch chooses radius, height and `key_z` exactly as in the source. -/
def make_tool (shape : Shape) (pos : Point) (is_top : Bool) : ToolPlacement :=
  if is_top then
    let radius := MAX_KEY_RADIUS
    let height := PEG_LENGTH
    let key_z := -(height / 2 - OVERLAP)
    { shape := shape, radius := radius, height := height,
      location := (pos.1, pos.2, key_z) }
  else
    let radius := MAX_KEY_RADIUS + CLEARANCE
    let height := PEG_LENGTH + CLEARANCE
    let key_z := height / 2 - OVERLAP
    { shape := shape, radius := radius, height := height,
      location := (pos.1, pos.2, key_z) }

/-- Result of `add_keys`: the final base solid, plus the trace of the tools
it built and of the per-key boolean outcomes (the log lines). -/
structure AddKeysResult (α : Type) : Type where
  hemisphere : α
  tools : List ToolPlacement
  logs : List BoolResult

/-- The assembler `add_keys(hemisphere, key_specs, is_top)`: for each `(shape, (x, y))`
build the tool, run `boolean` (UNION when `is_top`, DIFFERENCE otherwise)
on the accumulated base solid, discard the tool, and move to the next key. -/
def add_keys {α : Type} (ev : α → ToolPlacement → BoolOp → Option α)
    (hemisphere : α) (key_specs : List KeySpec) (is_top : Bool) :
    AddKeysResult α :=
  match key_specs with
  | [] => ⟨hemisphere, [], []⟩
  | (shape, pos) :: rest =>
    let key := make_tool shape pos is_top
    let op := if is_top then BoolOp.UNION else BoolOp.DIFFERENCE
    let step := boolean ev hemisphere key op
    let r := add_keys ev step.1 rest is_top
    ⟨r.hemisphere, key :: r.tools, step.2 :: r.logs⟩

/-- The `(shape, (x, y))` KeySpec a placed tool realizes: its shape and the
planar part of its location. -/
def key_of (t : ToolPlacement) : KeySpec := (t.shape, (t.location.1, t.location.2.1))

/-- The z-interval a placed tool occupies: every factory builds its
primitive centered at the origin with its height along z, so after
translation to `location` the tool spans `location.z ± height/2`. -/
def tool_z_extent (t : ToolPlacement) : ℚ × ℚ :=
  (t.location.2.2 - t.height / 2, t.location.2.2 + t.height / 2)

/-! ### Bead orchestrator (`generate_beads`) -/

/-- One bead pair: both constructed halves plus the shared spec list. -/
structure BeadHalves (α : Type) : Type where
  top : AddKeysResult α
  bottom : AddKeysResult α
  specs : List KeySpec

/-- One iteration of the bead loop:
`specs = list(zip(KEY_SHAPES, random_key_positions(KEYS_PER_BEAD)))`, then
`add_keys(top, specs, True)` and `add_keys(bottom, specs, False)` on the
same `specs` list. -/
def generate_bead {α : Type} (ev : α → ToolPlacement → BoolOp → Option α)
    (base_top base_bot : α) (cand : ℕ → Point) : BeadHalves α :=
  let specs := KEY_SHAPES.zip (random_key_positions cand KEYS_PER_BEAD)
  ⟨add_keys ev base_top specs true, add_keys ev base_bot specs false, specs⟩

/-- The `for idx in range(1, BEAD_COUNT + 1)` loop of `generate_beads`.
`make_hemisphere` abstracts `make_solid_hemisphere` (the fresh base solid
per half) and `cands idx` is the candidate stream the RNG yields for bead
`idx`'s single `random_key_positions` call. -/
def generate_beads {α : Type} (ev : α → ToolPlacement → BoolOp → Option α)
    (make_hemisphere : Bool → α) (cands : ℕ → ℕ → Point) :
    List (BeadHalves α) :=
  (List.range BEAD_COUNT).map fun idx =>
    generate_bead ev (make_hemisphere true) (make_hemisphere false) (cands idx)

/-! ### Noise displacement (`make_noisy_sphere`) -/

/-- A vertex coordinate triple. -/
abbrev Vec3 : Type := ℚ × ℚ × ℚ

/-- The body of the displacement loop for one vertex `v`:
`n = noise.noise(v.co * noise_scale)` then
`v.co += v.co.normalized() * n * noise_strength`.  The external
`mathutils` collaborators are the parameters: `noiseF` is the spatial
noise field and `normalized` the vector normalization. -/
def displace (noiseF : Vec3 → ℚ) (normalized : Vec3 → Vec3) (v : Vec3) : Vec3 :=
  v + (noiseF (noise_scale • v) * noise_strength) • normalized v

/-- The `for v in bm.verts` loop, generalized to an arbitrary traversal
`order` of vertex indices: each visited index is overwritten with the
displacement of its current value. -/
def displace_pass (noiseF : Vec3 → ℚ) (normalized : Vec3 → Vec3)
    (order : List ℕ) (verts : List Vec3) : List Vec3 :=
  order.foldl (fun vs i => vs.set i (displace noiseF normalized (vs.getD i 0))) verts

/-- The displacement part of `make_noisy_sphere`: visit the sphere's vertices in
their natural order and displace each one. -/
def make_noisy_sphere (noiseF : Vec3 → ℚ) (normalized : Vec3 → Vec3)
    (verts : List Vec3) : List Vec3 :=
  displace_pass noiseF normalized (List.range verts.length) verts

/-! ### Primitive factories (vertex sets, over `ℝ`)

The host's `primitive_cylinder_add(radius, depth, vertices=m)` builds a
prism centered at the origin whose cross-section vertices lie on the
circle of the given radius (`m = 32` default for `cylinder`, `3` for
`triangular_prism` via `primitive_cone_add`, `6` for `hexagon`), spanning
`±depth/2` along z.  `primitive_cube_add(size=2r)` builds a cube with
corners `(±r, ±r, ±r)`, which `square_prism` then scales along z by
`height / (radius * 2)`. -/

def prism_verts (m : ℕ) (radius depth : ℝ) : Set (ℝ × ℝ × ℝ) :=
  {p | ∃ k : ℕ, k < m ∧ ∃ topv : Bool,
    p = (radius * Real.cos (2 * Real.pi * k / m),
         radius * Real.sin (2 * Real.pi * k / m),
         if topv then depth / 2 else -(depth / 2))}

def cylinder (radius height : ℝ) : Set (ℝ × ℝ × ℝ) := prism_verts 32 radius height

def triangular_prism (radius height : ℝ) : Set (ℝ × ℝ × ℝ) := prism_verts 3 radius height

def hexagon (radius height : ℝ) : Set (ℝ × ℝ × ℝ) := prism_verts 6 radius height

def sign_of (b : Bool) : ℝ := if b then 1 else -1

def square_prism (radius height : ℝ) : Set (ℝ × ℝ × ℝ) :=
  {p | ∃ sx sy sz : Bool,
    p = (sign_of sx * radius, sign_of sy * radius,
         (height / (radius * 2)) * (sign_of sz * radius))}

/-- The `SHAPE_FACTORIES` dictionary. -/
def SHAPE_FACTORIES : Shape → ℝ → ℝ → Set (ℝ × ℝ × ℝ)
  | .cylinder => cylinder
  | .triangle => triangular_prism
  | .square => square_prism
  | .hexagon => hexagon

/-! ### Concrete inputs used by the witness theorems -/

/-- A candidate stream whose points are 30 mm apart, so every candidate
passes the separation test. -/
def spread_cand : ℕ → Point := fun k => ((30 * k : ℚ), 0)

/-- A per-bead family of such streams. -/
def spread_cands : ℕ → ℕ → Point := fun _ k => ((30 * k : ℚ), 0)

/-- An evaluator that always succeeds (counts applied booleans). -/
def count_ev : ℕ → ToolPlacement → BoolOp → Option ℕ := fun s _ _ => some (s + 1)

/-- An evaluator that always fails (every `modifier_apply` raises). -/
def fail_ev : ℕ → ToolPlacement → BoolOp → Option ℕ := fun _ _ _ => none

/-- A trivial hemisphere builder for witness instantiations. -/
def unit_hemisphere : Bool → ℕ := fun _ => 0

/-- A concrete noise field for witness instantiations. -/
def wit_field : Vec3 → ℚ := fun v => v.1

/-- A concrete vertex list for witness instantiations. -/
def wit_verts : List Vec3 := [(1, 2, 3), (4, 5, 6)]

/-! ### Supporting lemmas -/

/-- Comparing a Euclidean distance (`math.hypot`) against a nonnegative
threshold is the same as comparing squared distances; this justifies the
squared-distance form of the separation test. -/
theorem hypot_gt_iff_distSq (dx dy s : ℝ) (hs : 0 ≤ s) :
    s < Real.sqrt (dx^2 + dy^2) ↔ s^2 < dx^2 + dy^2 := by
  exact Real.lt_sqrt hs

theorem distSq_comm (p q : Point) : distSq p q = distSq q p := by
  simp only [distSq]; ring

/-- One unfolding step of the planner loop with positive fuel. -/
theorem rkp_loop_succ (cand : ℕ → Point) (n : ℕ) (coords : List Point)
    (attempts f : ℕ) :
    rkp_loop cand n coords attempts (f + 1) =
      if coords.length < n ∧ attempts < 1000 then
        rkp_loop cand n
          (if far_from_all (cand attempts) coords then coords ++ [cand attempts]
           else coords)
          (attempts + 1) f
      else coords := rfl

/-- The planner loop only ever appends to the accumulated list. -/
theorem rkp_loop_append (cand : ℕ → Point) (n : ℕ) :
    ∀ (fuel : ℕ) (coords : List Point) (attempts : ℕ),
    ∃ t, rkp_loop cand n coords attempts fuel = coords ++ t := by
  intro fuel
  induction fuel with
  | zero => exact fun coords attempts => ⟨[], by simp [rkp_loop]⟩
  | succ f ih =>
    intro coords attempts
    rw [rkp_loop_succ]
    by_cases hc : coords.length < n ∧ attempts < 1000
    · rw [if_pos hc]
      by_cases hf : far_from_all (cand attempts) coords = true
      · rw [if_pos hf]
        obtain ⟨t, ht⟩ := ih (coords ++ [cand attempts]) (attempts + 1)
        exact ⟨cand attempts :: t, by rw [ht, List.append_assoc, List.singleton_append]⟩
      · rw [if_neg hf]
        exact ih coords (attempts + 1)
    · rw [if_neg hc]
      exact ⟨[], by rw [List.append_nil]⟩

/-- The separation invariant is preserved by the planner loop. -/
theorem rkp_loop_pairwise (cand : ℕ → Point) (n : ℕ) :
    ∀ (fuel : ℕ) (coords : List Point) (attempts : ℕ),
    coords.Pairwise (fun p q => (MAX_KEY_RADIUS * 2)^2 < distSq p q) →
    (rkp_loop cand n coords attempts fuel).Pairwise
      (fun p q => (MAX_KEY_RADIUS * 2)^2 < distSq p q) := by
  intro fuel
  induction fuel with
  | zero => intro coords attempts h; simpa [rkp_loop] using h
  | succ f ih =>
    intro coords attempts h
    rw [rkp_loop_succ]
    by_cases hc : coords.length < n ∧ attempts < 1000
    · rw [if_pos hc]
      by_cases hf : far_from_all (cand attempts) coords = true
      · rw [if_pos hf]
        have hfar : ∀ c ∈ coords, (MAX_KEY_RADIUS * 2)^2 < distSq (cand attempts) c := by
          simpa only [far_from_all, List.all_eq_true, decide_eq_true_eq] using hf
        refine ih (coords ++ [cand attempts]) (attempts + 1) ?_
        refine List.pairwise_append.mpr ⟨h, List.pairwise_singleton _ _, ?_⟩
        intro a ha b hb
        have hb' := List.mem_singleton.mp hb
        subst hb'
        rw [distSq_comm]
        exact hfar a ha
      · rw [if_neg hf]
        exact ih coords (attempts + 1) h
    · rw [if_neg hc]
      exact h

/-- The planner loop never grows the list beyond `n` entries. -/
theorem rkp_loop_length_le (cand : ℕ → Point) (n : ℕ) :
    ∀ (fuel : ℕ) (coords : List Point) (attempts : ℕ),
    coords.length ≤ n → (rkp_loop cand n coords attempts fuel).length ≤ n := by
  intro fuel
  induction fuel with
  | zero => intro coords attempts h; simpa [rkp_loop] using h
  | succ f ih =>
    intro coords attempts h
    rw [rkp_loop_succ]
    by_cases hc : coords.length < n ∧ attempts < 1000
    · rw [if_pos hc]
      by_cases hf : far_from_all (cand attempts) coords = true
      · rw [if_pos hf]
        refine ih (coords ++ [cand attempts]) (attempts + 1) ?_
        simpa [List.length_append] using hc.1
      · rw [if_neg hf]
        exact ih coords (attempts + 1) h
    · rw [if_neg hc]
      exact h

/-- The planner loop inspects the candidate stream only at attempt indices
below 1000 (the attempt budget). -/
theorem rkp_loop_agree (n : ℕ) :
    ∀ (fuel : ℕ) (cand cand' : ℕ → Point) (coords : List Point) (attempts : ℕ),
    (∀ k, k < 1000 → cand k = cand' k) →
    rkp_loop cand n coords attempts fuel = rkp_loop cand' n coords attempts fuel := by
  intro fuel
  induction fuel with
  | zero => intro cand cand' coords attempts _; simp [rkp_loop]
  | succ f ih =>
    intro cand cand' coords attempts hagree
    rw [rkp_loop_succ, rkp_loop_succ]
    by_cases hc : coords.length < n ∧ attempts < 1000
    · rw [if_pos hc, if_pos hc, hagree attempts hc.2]
      exact ih cand cand' _ (attempts + 1) hagree
    · rw [if_neg hc, if_neg hc]

/-- C3: any two distinct positions accepted by the key placement planner
within one bead are separated by more than `MAX_KEY_RADIUS * 2`
(equivalently, squared center-to-center distance exceeds
`(MAX_KEY_RADIUS * 2)^2`, hence Euclidean distance is at least
`2 × maxKeyRadius`), in both orders, because a candidate is accepted only
if it is farther than that separation from every previously accepted
point. -/
theorem C3_non_overlap (cand : ℕ → Point) (n : ℕ) :
    (random_key_positions cand n).Pairwise
      (fun p q => (MAX_KEY_RADIUS * 2)^2 < distSq p q ∧
                  (MAX_KEY_RADIUS * 2)^2 < distSq q p) := by
  have h := rkp_loop_pairwise cand n 1000 [] 0 List.Pairwise.nil
  exact h.imp fun {p q} hpq => ⟨hpq, distSq_comm p q ▸ hpq⟩

/-- C10: with a positive requested count, the planner's output is
non-empty and starts with the very first sampled candidate: the
separation test over the empty list of previously accepted points is
vacuously true and the 1000-attempt budget permits at least one draw. -/
theorem C10_first_candidate_accepted (cand : ℕ → Point) (n : ℕ) (hn : 1 ≤ n) :
    0 < (random_key_positions cand n).length ∧
    (random_key_positions cand n).head? = some (cand 0) := by
  have hc : ([] : List Point).length < n ∧ 0 < 1000 := by
    constructor
    · simpa using hn
    · norm_num
  have hstep : random_key_positions cand n = rkp_loop cand n [cand 0] 1 999 := by
    rw [random_key_positions, show (1000 : ℕ) = 999 + 1 from rfl, rkp_loop_succ,
      if_pos hc, if_pos (show far_from_all (cand 0) [] = true from rfl),
      List.nil_append]
  obtain ⟨t, ht⟩ := rkp_loop_append cand n 999 [cand 0] 1
  rw [hstep, ht, List.singleton_append]
  exact ⟨Nat.succ_pos _, rfl⟩

/-- C10 witness. -/
theorem C10_first_candidate_accepted_witness :
    0 < (random_key_positions spread_cand 4).length ∧
    (random_key_positions spread_cand 4).head? = some (spread_cand 0) :=
  C10_first_candidate_accepted spread_cand 4 (by norm_num)

/-- One tool is built and one boolean attempt performed per KeySpec by
`add_keys`, in spec order, regardless of evaluator outcomes. -/
theorem add_keys_run {α : Type} (ev : α → ToolPlacement → BoolOp → Option α)
    (is_top : Bool) :
    ∀ (key_specs : List KeySpec) (hemisphere : α),
    (add_keys ev hemisphere key_specs is_top).tools
      = key_specs.map (fun s => make_tool s.1 s.2 is_top) ∧
    (add_keys ev hemisphere key_specs is_top).logs.length = key_specs.length := by
  intro key_specs
  induction key_specs with
  | nil => intro hemisphere; exact ⟨rfl, rfl⟩
  | cons s rest ih =>
    intro hemisphere
    obtain ⟨shape, pos⟩ := s
    obtain ⟨ih1, ih2⟩ :=
      ih (boolean ev hemisphere (make_tool shape pos is_top)
        (if is_top then BoolOp.UNION else BoolOp.DIFFERENCE)).1
    exact ⟨by simp [add_keys, ih1], by simp [add_keys, ih2]⟩

/-- The KeySpec a built tool realizes is the one it was built from: the
`if is_top` branches differ in radius, height and z, but keep the shape
and the planar (x, y) position. -/
theorem key_of_make_tool (s : Shape) (p : Point) (t : Bool) :
    key_of (make_tool s p t) = (s, p) := by
  cases t <;> simp [key_of, make_tool]

/-- The traced tools of an `add_keys` run realize exactly the KeySpec list
it was given. -/
theorem add_keys_key_trace {α : Type} (ev : α → ToolPlacement → BoolOp → Option α)
    (hemisphere : α) (key_specs : List KeySpec) (is_top : Bool) :
    (add_keys ev hemisphere key_specs is_top).tools.map key_of = key_specs := by
  rw [(add_keys_run ev is_top key_specs hemisphere).1, List.map_map]
  have h : (key_of ∘ fun s : KeySpec => make_tool s.1 s.2 is_top) = id := by
    funext s
    simp [Function.comp, key_of_make_tool]
  rw [h, List.map_id]

/-- C1: for every bead pair built by the orchestrator, the KeySpec
sequence realized by the tools of the top (peg) half is identical — same
shapes, same (x, y) positions, same order — to the one realized by the
bottom (socket) half, and both equal the bead's single sampled spec list:
the orchestrator samples placements exactly once per bead and passes the
same list to both half constructions. -/
theorem C1_mating_invariant {α : Type} (ev : α → ToolPlacement → BoolOp → Option α)
    (make_hemisphere : Bool → α) (cands : ℕ → ℕ → Point) :
    ∀ bead ∈ generate_beads ev make_hemisphere cands,
      bead.top.tools.map key_of = bead.bottom.tools.map key_of ∧
      bead.top.tools.map key_of = bead.specs := by
  intro bead hbead
  simp only [generate_beads, List.mem_map] at hbead
  obtain ⟨idx, -, rfl⟩ := hbead
  simp only [generate_bead]
  rw [add_keys_key_trace, add_keys_key_trace]
  exact ⟨rfl, rfl⟩

/-- C1 witness. -/
theorem C1_mating_invariant_witness :
    (generate_bead count_ev (unit_hemisphere true) (unit_hemisphere false)
        (spread_cands 0)).top.tools.map key_of
      = (generate_bead count_ev (unit_hemisphere true) (unit_hemisphere false)
        (spread_cands 0)).bottom.tools.map key_of ∧
    (generate_bead count_ev (unit_hemisphere true) (unit_hemisphere false)
        (spread_cands 0)).top.tools.map key_of
      = (generate_bead count_ev (unit_hemisphere true) (unit_hemisphere false)
        (spread_cands 0)).specs :=
  C1_mating_invariant count_ev unit_hemisphere spread_cands _
    (List.mem_map_of_mem _ (by decide : (0 : ℕ) ∈ List.range BEAD_COUNT))

/-- C4: for every key shape and position, the socket-mode tool is oversized
by the radial clearance in both radius and height relative to the
peg-mode tool: socket radius `= MAX_KEY_RADIUS + CLEARANCE` versus peg
radius `= MAX_KEY_RADIUS`, socket height `= PEG_LENGTH + CLEARANCE`
versus peg height `= PEG_LENGTH`. -/
theorem C4_clearance_sizing (shape : Shape) (pos : Point) :
    (make_tool shape pos false).radius = (make_tool shape pos true).radius + CLEARANCE ∧
    (make_tool shape pos false).height = (make_tool shape pos true).height + CLEARANCE ∧
    (make_tool shape pos true).radius = MAX_KEY_RADIUS ∧
    (make_tool shape pos true).height = PEG_LENGTH ∧
    (make_tool shape pos false).radius = MAX_KEY_RADIUS + CLEARANCE ∧
    (make_tool shape pos false).height = PEG_LENGTH + CLEARANCE := by
  simp [make_tool]

/-- C5: the peg-mode tool of height `h` is translated to
`(x, y, -(h/2 - OVERLAP))`, so its z-extent is `[-(h - OVERLAP), OVERLAP]`,
ending exactly `OVERLAP` above z = 0; the socket-mode tool of height `h'`
is translated to `(x, y, h'/2 - OVERLAP)`, so its z-extent is
`[-OVERLAP, h' - OVERLAP]`, starting exactly `OVERLAP` below z = 0
(`OVERLAP` is positive). -/
theorem C5_overlap_positioning (shape : Shape) (pos : Point) :
    (make_tool shape pos true).location
      = (pos.1, pos.2, -((make_tool shape pos true).height / 2 - OVERLAP)) ∧
    tool_z_extent (make_tool shape pos true)
      = (-((make_tool shape pos true).height - OVERLAP), OVERLAP) ∧
    (make_tool shape pos false).location
      = (pos.1, pos.2, (make_tool shape pos false).height / 2 - OVERLAP) ∧
    tool_z_extent (make_tool shape pos false)
      = (-OVERLAP, (make_tool shape pos false).height - OVERLAP) ∧
    (0 : ℚ) < OVERLAP := by
  refine ⟨?_, ?_, ?_, ?_, by norm_num [OVERLAP]⟩ <;>
    simp [make_tool, tool_z_extent, Prod.ext_iff, PEG_LENGTH, OVERLAP, CLEARANCE] <;>
    norm_num

/-- C6: when the boolean evaluation for a single key fails (the evaluator
returns `none`, modelling the caught `RuntimeError`), the failure is
logged, the base solid is returned exactly as it was before that key's
attempted merge, and `add_keys` continues with the remaining keys from
that same unchanged solid — the failed key is not retried and the bead's
construction is not aborted. -/
theorem C6_boolean_failure_skipped {α : Type}
    (ev : α → ToolPlacement → BoolOp → Option α) (base : α) (shape : Shape)
    (pos : Point) (rest : List KeySpec) (t : Bool)
    (hfail : ev base (make_tool shape pos t)
      (if t then BoolOp.UNION else BoolOp.DIFFERENCE) = none) :
    boolean ev base (make_tool shape pos t)
        (if t then BoolOp.UNION else BoolOp.DIFFERENCE)
      = (base, BoolResult.failed) ∧
    (add_keys ev base ((shape, pos) :: rest) t).hemisphere
      = (add_keys ev base rest t).hemisphere ∧
    (add_keys ev base ((shape, pos) :: rest) t).logs
      = BoolResult.failed :: (add_keys ev base rest t).logs ∧
    (add_keys ev base ((shape, pos) :: rest) t).tools
      = make_tool shape pos t :: (add_keys ev base rest t).tools := by
  have hb : boolean ev base (make_tool shape pos t)
      (if t then BoolOp.UNION else BoolOp.DIFFERENCE) = (base, BoolResult.failed) := by
    rw [boolean, hfail]
  refine ⟨hb, ?_, ?_, ?_⟩ <;> simp [add_keys, hb]

/-- C6 witness. -/
theorem C6_boolean_failure_skipped_witness :
    boolean fail_ev 0 (make_tool Shape.cylinder ((0 : ℚ), (0 : ℚ)) true)
        (if true then BoolOp.UNION else BoolOp.DIFFERENCE)
      = (0, BoolResult.failed) ∧
    (add_keys fail_ev 0 ((Shape.cylinder, ((0 : ℚ), (0 : ℚ)))
        :: [(Shape.square, ((1 : ℚ), (1 : ℚ)))]) true).hemisphere
      = (add_keys fail_ev 0 [(Shape.square, ((1 : ℚ), (1 : ℚ)))] true).hemisphere ∧
    (add_keys fail_ev 0 ((Shape.cylinder, ((0 : ℚ), (0 : ℚ)))
        :: [(Shape.square, ((1 : ℚ), (1 : ℚ)))]) true).logs
      = BoolResult.failed
        :: (add_keys fail_ev 0 [(Shape.square, ((1 : ℚ), (1 : ℚ)))] true).logs ∧
    (add_keys fail_ev 0 ((Shape.cylinder, ((0 : ℚ), (0 : ℚ)))
        :: [(Shape.square, ((1 : ℚ), (1 : ℚ)))]) true).tools
      = make_tool Shape.cylinder ((0 : ℚ), (0 : ℚ)) true
        :: (add_keys fail_ev 0 [(Shape.square, ((1 : ℚ), (1 : ℚ)))] true).tools :=
  C6_boolean_failure_skipped fail_ev 0 Shape.cylinder ((0 : ℚ), (0 : ℚ))
    [(Shape.square, ((1 : ℚ), (1 : ℚ)))] true rfl

/-- C7: the planner stops after `n` accepted points or after the
1000-attempt budget (its result depends only on the first 1000 candidate
draws), returns at most `n` positions, the orchestrator pairs the result
positionally with the fixed shape list (zip truncation, so unmatched
shapes are dropped), and the bead is still built — one tool and one
logged boolean attempt per surviving KeySpec — rather than raising an
error. -/
theorem C7_budget_and_shortfall {α : Type}
    (ev : α → ToolPlacement → BoolOp → Option α) (base_top base_bot : α)
    (cand cand' : ℕ → Point) (n : ℕ)
    (hagree : ∀ k, k < 1000 → cand k = cand' k) :
    random_key_positions cand n = random_key_positions cand' n ∧
    (random_key_positions cand n).length ≤ n ∧
    (generate_bead ev base_top base_bot cand).specs.length
      = min KEY_SHAPES.length (random_key_positions cand KEYS_PER_BEAD).length ∧
    (generate_bead ev base_top base_bot cand).top.tools.length
      = (generate_bead ev base_top base_bot cand).specs.length ∧
    (generate_bead ev base_top base_bot cand).bottom.logs.length
      = (generate_bead ev base_top base_bot cand).specs.length := by
  refine ⟨rkp_loop_agree n 1000 cand cand' [] 0 hagree,
    rkp_loop_length_le cand n 1000 [] 0 (Nat.zero_le n), ?_, ?_, ?_⟩
  · simp only [generate_bead, List.length_zip]
  · simp only [generate_bead, (add_keys_run ev true _ base_top).1, List.length_map]
  · simp only [generate_bead, (add_keys_run ev false _ base_bot).2]

/-- C7 witness. -/
theorem C7_budget_and_shortfall_witness :
    random_key_positions spread_cand 7 = random_key_positions spread_cand 7 ∧
    (random_key_positions spread_cand 7).length ≤ 7 ∧
    (generate_bead count_ev 0 0 spread_cand).specs.length
      = min KEY_SHAPES.length (random_key_positions spread_cand KEYS_PER_BEAD).length ∧
    (generate_bead count_ev 0 0 spread_cand).top.tools.length
      = (generate_bead count_ev 0 0 spread_cand).specs.length ∧
    (generate_bead count_ev 0 0 spread_cand).bottom.logs.length
      = (generate_bead count_ev 0 0 spread_cand).specs.length :=
  C7_budget_and_shortfall count_ev 0 0 spread_cand spread_cand 7
    (fun _ _ => rfl)

/-- C2 counterexample: the planner's radius draw is
`r = random.uniform(0, U) = U * u` for a unit draw `u`, which at
`u = 1/4` yields `U/4` and not the spec's area-uniform
`U * sqrt(1/4) = U/2`; so the radius coordinate is not sampled as
`U × sqrt(uniform(0,1))`. -/
theorem C2_area_uniform_counterexample :
    ¬ sample_radius_spec_rel ((1 : ℝ)/4) ((sample_radius (1/4) : ℚ) : ℝ) := by
  intro h
  rw [sample_radius_spec_rel,
    show ((1 : ℝ)/4) = (1/2)^2 by norm_num,
    Real.sqrt_sq (by norm_num : (0 : ℝ) ≤ 1/2)] at h
  rw [show sample_radius (1/4) = 21/4 by
    norm_num [sample_radius, usable_radius_for_keys, INNER_R, OUTER_R,
      SPHERE_DIAMETER, WALL_THICKNESS, MAX_KEY_RADIUS]] at h
  rw [show (usable_radius_for_keys : ℝ) = 21 by
    norm_num [usable_radius_for_keys, INNER_R, OUTER_R, SPHERE_DIAMETER,
      WALL_THICKNESS, MAX_KEY_RADIUS]] at h
  norm_num at h

/-- C2 (amended): the planner draws each candidate's radius uniformly in
`[0, U]` — `r = U * u`, linear in the unit draw `u`, with
`U = INNER_R - MAX_KEY_RADIUS` — and hence within the disk of radius `U`;
the radius is not warped by a square root, so the induced point
distribution is uniform in radius (center-biased by area), not
area-uniform. -/
theorem C2_radius_linear (u : ℚ) (h0 : 0 ≤ u) (h1 : u ≤ 1) :
    sample_radius u = usable_radius_for_keys * u ∧
    0 ≤ sample_radius u ∧
    sample_radius u ≤ usable_radius_for_keys ∧
    usable_radius_for_keys = INNER_R - MAX_KEY_RADIUS := by
  have hU : usable_radius_for_keys = 21 := by
    norm_num [usable_radius_for_keys, INNER_R, OUTER_R, SPHERE_DIAMETER,
      WALL_THICKNESS, MAX_KEY_RADIUS]
  refine ⟨rfl, ?_, ?_, rfl⟩
  · rw [sample_radius, hU]
    positivity
  · rw [sample_radius, hU]
    nlinarith

/-- C2 (amended) witness. -/
theorem C2_radius_linear_witness :
    sample_radius (1/4) = usable_radius_for_keys * (1/4) ∧
    0 ≤ sample_radius (1/4) ∧
    sample_radius (1/4) ≤ usable_radius_for_keys ∧
    usable_radius_for_keys = INNER_R - MAX_KEY_RADIUS :=
  C2_radius_linear (1/4) (by norm_num) (by norm_num)

/-- What the displacement pass does to each vertex slot: a slot is
displaced once if its index is visited (each visited index reads only the
value currently stored at that index), and untouched otherwise. -/
theorem displace_pass_spec (noiseF : Vec3 → ℚ) (normalized : Vec3 → Vec3) :
    ∀ (order : List ℕ) (verts : List Vec3), order.Nodup →
    (displace_pass noiseF normalized order verts).length = verts.length ∧
    ∀ j : ℕ, j < verts.length →
      (displace_pass noiseF normalized order verts)[j]? =
        if j ∈ order then (verts[j]?).map (displace noiseF normalized)
        else verts[j]? := by
  intro order
  induction order with
  | nil =>
    intro verts _
    refine ⟨rfl, fun j _ => by simp [displace_pass]⟩
  | cons i rest ih =>
    intro verts hnd
    have hi : i ∉ rest := (List.nodup_cons.mp hnd).1
    have hndr : rest.Nodup := (List.nodup_cons.mp hnd).2
    have hstep : displace_pass noiseF normalized (i :: rest) verts
        = displace_pass noiseF normalized rest
            (verts.set i (displace noiseF normalized (verts.getD i 0))) := rfl
    set verts' := verts.set i (displace noiseF normalized (verts.getD i 0)) with hv
    have hlen : verts'.length = verts.length := List.length_set ..
    obtain ⟨ihlen, ihget⟩ := ih verts' hndr
    refine ⟨by rw [hstep, ihlen, hlen], ?_⟩
    intro j hj
    rw [hstep, ihget j (by omega)]
    by_cases hji : j = i
    · subst hji
      have h1 : verts'[j]? = some (displace noiseF normalized (verts.getD j 0)) := by
        rw [hv, List.getElem?_set, if_pos rfl, if_pos hj]
      have h2 : verts[j]? = some (verts.getD j 0) := by
        rw [List.getElem?_eq_getElem hj, List.getD_eq_getElem verts 0 hj]
      rw [if_neg hi, if_pos (List.mem_cons_self j rest), h1, h2]
      rfl
    · have h1 : verts'[j]? = verts[j]? := by
        rw [hv, List.getElem?_set, if_neg (fun h => hji h.symm)]
      rw [h1]
      simp only [List.mem_cons, hji, false_or]

/-- Visiting the vertex indices in any order (each exactly once) displaces
each vertex from its own original position: the pass is the elementwise
map of `displace`. -/
theorem displace_pass_eq_map (noiseF : Vec3 → ℚ) (normalized : Vec3 → Vec3)
    (verts : List Vec3) (order : List ℕ)
    (hperm : order.Perm (List.range verts.length)) :
    displace_pass noiseF normalized order verts
      = verts.map (displace noiseF normalized) := by
  have hnd : order.Nodup := hperm.nodup_iff.mpr (List.nodup_range _)
  have hmem : ∀ j : ℕ, j ∈ order ↔ j < verts.length := fun j => by
    rw [hperm.mem_iff, List.mem_range]
  obtain ⟨hlen, hget⟩ := displace_pass_spec noiseF normalized order verts hnd
  apply List.ext_getElem?
  intro j
  by_cases hj : j < verts.length
  · rw [hget j hj, if_pos ((hmem j).mpr hj), List.getElem?_map]
  · have e1 : (displace_pass noiseF normalized order verts)[j]? = none :=
      List.getElem?_eq_none (by rw [hlen]; omega)
    have e2 : (verts.map (displace noiseF normalized))[j]? = none :=
      List.getElem?_eq_none (by rw [List.length_map]; omega)
    rw [e1, e2]

/-- C8: every vertex of the noise pass is displaced to
`v + normalize(v) * noise(v * noise_scale) * noise_strength`, a function
of its own original position and the spatial noise field only (no seeded
RNG parameter appears), and the result is independent of the vertex
traversal order: any traversal visiting each index once yields the same
elementwise map. -/
theorem C8_noise_displacement_pure (noiseF : Vec3 → ℚ) (normalized : Vec3 → Vec3)
    (verts : List Vec3) (order : List ℕ)
    (hperm : order.Perm (List.range verts.length)) :
    displace_pass noiseF normalized order verts
      = verts.map (displace noiseF normalized) ∧
    make_noisy_sphere noiseF normalized verts
      = verts.map (fun v =>
          v + (noiseF (noise_scale • v) * noise_strength) • normalized v) := by
  refine ⟨displace_pass_eq_map noiseF normalized verts order hperm, ?_⟩
  rw [make_noisy_sphere,
    displace_pass_eq_map noiseF normalized verts _ (List.Perm.refl _)]
  rfl

/-- C8 witness. -/
theorem C8_noise_displacement_pure_witness :
    displace_pass wit_field id [1, 0] wit_verts
      = wit_verts.map (displace wit_field id) ∧
    make_noisy_sphere wit_field id wit_verts
      = wit_verts.map (fun v =>
          v + (wit_field (noise_scale • v) * noise_strength) • id v) :=
  C8_noise_displacement_pure wit_field id wit_verts [1, 0] (by decide)

/-- Every cross-section vertex of a prism factory lies on the circle of
its radius parameter. -/
theorem prism_verts_planar (m : ℕ) (radius depth : ℝ) (p : ℝ × ℝ × ℝ)
    (hp : p ∈ prism_verts m radius depth) :
    p.1^2 + p.2.1^2 = radius^2 := by
  obtain ⟨k, -, b, rfl⟩ := hp
  have h := Real.cos_sq_add_sin_sq (2 * Real.pi * k / m)
  calc (radius * Real.cos (2 * Real.pi * k / m))^2
        + (radius * Real.sin (2 * Real.pi * k / m))^2
      = radius^2 * (Real.cos (2 * Real.pi * k / m)^2
        + Real.sin (2 * Real.pi * k / m)^2) := by ring
    _ = radius^2 := by rw [h, mul_one]

/-- C9: for radius r > 0, the square-prism factory's corner vertices have
x-coordinate ±r (side 2r) and planar distance √2 · r from the z-axis,
strictly greater than r; the cylinder, triangular-prism and hexagon
factories keep every vertex within planar distance r of the axis (r is
their circumradius).  The planner's bounds computed from `MAX_KEY_RADIUS`
therefore do not bound the square key's footprint. -/
theorem C9_square_footprint_oversize (r h : ℝ) (hr : 0 < r) :
    (∀ p ∈ SHAPE_FACTORIES Shape.square r h, p.1 = r ∨ p.1 = -r) ∧
    (∀ p ∈ SHAPE_FACTORIES Shape.square r h,
      Real.sqrt (p.1^2 + p.2.1^2) = Real.sqrt 2 * r) ∧
    r < Real.sqrt 2 * r ∧
    (∀ p ∈ SHAPE_FACTORIES Shape.cylinder r h,
      Real.sqrt (p.1^2 + p.2.1^2) ≤ r) ∧
    (∀ p ∈ SHAPE_FACTORIES Shape.triangle r h,
      Real.sqrt (p.1^2 + p.2.1^2) ≤ r) ∧
    (∀ p ∈ SHAPE_FACTORIES Shape.hexagon r h,
      Real.sqrt (p.1^2 + p.2.1^2) ≤ r) := by
  have hsq2 : (1 : ℝ) < Real.sqrt 2 :=
    (Real.lt_sqrt (by norm_num)).mpr (by norm_num)
  have hprism : ∀ m : ℕ, ∀ p ∈ prism_verts m r h,
      Real.sqrt (p.1^2 + p.2.1^2) ≤ r := by
    intro m p hp
    rw [prism_verts_planar m r h p hp, Real.sqrt_sq hr.le]
  refine ⟨?_, ?_, ?_, hprism 32, hprism 3, hprism 6⟩
  · rintro p ⟨sx, sy, sz, rfl⟩
    cases sx <;> simp [sign_of]
  · rintro p ⟨sx, sy, sz, rfl⟩
    have hxy : (sign_of sx * r)^2 + (sign_of sy * r)^2 = 2 * r^2 := by
      cases sx <;> cases sy <;> simp [sign_of] <;> ring
    rw [show ((sign_of sx * r, sign_of sy * r,
        h / (r * 2) * (sign_of sz * r)) : ℝ × ℝ × ℝ).1 = sign_of sx * r from rfl,
      show ((sign_of sx * r, sign_of sy * r,
        h / (r * 2) * (sign_of sz * r)) : ℝ × ℝ × ℝ).2.1 = sign_of sy * r from rfl,
      hxy, show (2 : ℝ) * r^2 = 2 * r^2 from rfl,
      Real.sqrt_mul (by norm_num : (0 : ℝ) ≤ 2), Real.sqrt_sq hr.le]
  · calc r = 1 * r := (one_mul r).symm
      _ < Real.sqrt 2 * r := by exact mul_lt_mul_of_pos_right hsq2 hr

/-- C9 witness. -/
theorem C9_square_footprint_oversize_witness :
    (∀ p ∈ SHAPE_FACTORIES Shape.square (6 : ℝ) 20, p.1 = 6 ∨ p.1 = -6) ∧
    (∀ p ∈ SHAPE_FACTORIES Shape.square (6 : ℝ) 20,
      Real.sqrt (p.1^2 + p.2.1^2) = Real.sqrt 2 * 6) ∧
    (6 : ℝ) < Real.sqrt 2 * 6 ∧
    (∀ p ∈ SHAPE_FACTORIES Shape.cylinder (6 : ℝ) 20,
      Real.sqrt (p.1^2 + p.2.1^2) ≤ 6) ∧
    (∀ p ∈ SHAPE_FACTORIES Shape.triangle (6 : ℝ) 20,
      Real.sqrt (p.1^2 + p.2.1^2) ≤ 6) ∧
    (∀ p ∈ SHAPE_FACTORIES Shape.hexagon (6 : ℝ) 20,
      Real.sqrt (p.1^2 + p.2.1^2) ≤ 6) :=
  C9_square_footprint_oversize 6 20 (by norm_num)

end ProteinBeads
